import Mathlib

set_option maxHeartbeats 1000000
set_option maxRecDepth 8192

namespace Picobot

/-!
Verification of the picobot orchestration core against its specification.

The Go source is embedded shallowly: pure helpers become Lean functions on
`List Char` / `String` / `Nat`; stateful components (hub router, MCP
transports, tool registry) become explicit state-passing step functions;
effectful stdlib calls (DNS resolution, dialing, the filesystem) are
parameters or effect traces.  Machine integers are modelled as `Nat`/`Int`
with explicit wrapping where it matters (none of the embedded code relies
on overflow).
-/

/-! ## Association lists

Go `map` lookups and single-key updates, modelled on association lists with
unique keys (a Go map never holds a key twice).  `assocUpdate` replaces the
value at the first occurrence of the key and leaves the list unchanged when
the key is absent. -/

def assocLookup {κ α : Type} [DecidableEq κ] : List (κ × α) → κ → Option α
  | [], _ => none
  | (n, v) :: rest, k => if n = k then some v else assocLookup rest k

def assocUpdate {κ α : Type} [DecidableEq κ] : List (κ × α) → κ → α → List (κ × α)
  | [], _, _ => []
  | (n, w) :: rest, k, v =>
    if n = k then (n, v) :: rest else (n, w) :: assocUpdate rest k v

/-! ## Message splitting (src/internal/channels/discord.go, `splitMessage`)

The Go function works on `[]rune`; strings are modelled as `List Char`, and
lengths are rune counts.  The Go source's initial `len(content) <= maxLen`
guard is a byte-length check, but byte length is always at least rune
length, and when the byte length exceeds `maxLen` while the rune length does
not, the first loop iteration immediately emits the whole input — so the
rune-length guard used here yields exactly the same result on every input.
-/

/-- Embeds the Go backward scan `for i := maxLen - 1; i >= 0; i-- ;
if runes[i] == c ; splitIdx = i + 1; break`.  Returns `some (i + 1)` for the
largest `i` below the bound at which `c` occurs, else `none`. -/
def scanIdx (runes : List Char) (c : Char) : Nat → Option Nat
  | 0 => none
  | n + 1 => if runes.get? n = some c then some (n + 1) else scanIdx runes c n

/-- Embeds the split-point computation of one loop iteration of
`splitMessage`: prefer a newline break; when none is found below `maxLen`
(or the found break point is exactly `maxLen`), fall back to a space break;
otherwise split at `maxLen`. -/
def splitStep (runes : List Char) (maxLen : Nat) : Nat :=
  let newlineIdx := (scanIdx runes '\n' maxLen).getD maxLen
  if newlineIdx = maxLen then (scanIdx runes ' ' maxLen).getD maxLen
  else newlineIdx

/-- Embeds the chunking loop of `splitMessage`.  The Go loop terminates
because every iteration consumes at least one rune (for positive `maxLen`);
the fuel argument makes that measure explicit and is instantiated with the
input length. -/
def splitLoop (maxLen : Nat) : Nat → List Char → List (List Char)
  | 0, _ => []
  | fuel + 1, runes =>
    if runes = [] then []
    else if runes.length ≤ maxLen then [runes]
    else
      let idx := splitStep runes maxLen
      runes.take idx :: splitLoop maxLen fuel (runes.drop idx)

/-- Embeds `splitMessage` from src/internal/channels/discord.go. -/
def splitMessage (content : List Char) (maxLen : Nat) : List (List Char) :=
  if content.length ≤ maxLen then [content]
  else splitLoop maxLen content.length content

/-! ## Tool registry (src/internal/agent/tools/registry.go)

The Go `Tool` interface carries a name, a description, a JSON-Schema
parameter object and an `Execute` function; only the name and the execute
function are constrained by the claims.  The argument map
`map[string]interface{}` is modelled as an association list from string
keys to string values, and `Execute`'s `(string, error)` result as
`Except String String`.  Logging is I/O only and is not modelled. -/

structure ToolImpl where
  name : String
  description : String := ""
  execute : List (String × String) → Except String String

/-- Embeds Registry.Get: a Go map read returns the zero value (nil) for an
absent key, modelled as `none`. -/
def registryGet (r : List (String × ToolImpl)) (name : String) : Option ToolImpl :=
  assocLookup r name

/-- Embeds Registry.Execute: reject an empty name, then look the tool up,
then run it; the two error messages are those of the source. -/
def registryExecute (r : List (String × ToolImpl)) (name : String)
    (args : List (String × String)) : Except String String :=
  if name = "" then .error "tool name is required"
  else
    match assocLookup r name with
    | none => .error "tool not found"
    | some t => t.execute args

/-! ## Hub (src/internal/chat/chat.go)

`chat.Inbound` and `chat.Outbound` are embedded with their string and
string-list fields; the `map[string]interface{}` metadata field and the
`time.Time` timestamp carry no claim and are modelled as absent / a `Nat`.
A Go buffered channel of capacity `cap` currently holding `q` is modelled by
`chanSend`: a send completes immediately when a slot is free and otherwise
blocks the sender.  `Hub.Subscribe` creates each subscriber queue with
capacity `cap(h.Out)`, so all queues share one capacity. -/

structure Inbound where
  channel : String
  senderID : String
  chatID : String
  content : String
  timestamp : Nat := 0
  media : List String := []
deriving DecidableEq, Repr

structure Outbound where
  channel : String
  chatID : String
  content : String
  replyTo : String := ""
  media : List String := []
deriving DecidableEq, Repr

inductive SendOutcome (α : Type) where
  | enqueued (q : List α)
  | blocked
deriving DecidableEq, Repr

/-- Embeds a send on a Go buffered channel (`h.In <- msg` or `ch <- out`):
enqueue when a buffer slot is free, block otherwise.  There is no dropping
outcome — a Go channel send never discards. -/
def chanSend {α : Type} (cap : Nat) (q : List α) (x : α) : SendOutcome α :=
  if q.length < cap then .enqueued (q ++ [x]) else .blocked

inductive RouteOutcome where
  | delivered (subs : List (String × List Outbound))
  | blocked
  | dropped
deriving DecidableEq, Repr

/-- Embeds one iteration of the Hub.StartRouter goroutine for a dequeued
outbound message: look up the subscriber for `out.Channel`; when present,
send on its queue (`select { case ch <- out: case <-ctx.Done(): }` — the
send blocks when the queue is full, until space or cancellation); when
absent, log a warning and drop the message. -/
def routeStep (cap : Nat) (subs : List (String × List Outbound)) (out : Outbound) :
    RouteOutcome :=
  match assocLookup subs out.channel with
  | some q =>
    match chanSend cap q out with
    | .enqueued q2 => .delivered (assocUpdate subs out.channel q2)
    | .blocked => .blocked
  | none => .dropped

/-! ## Web tool body limit (src/internal/agent/tools/web.go, WebTool.Execute)

The Go limit is an `int64`, modelled as `Int` (no overflow is reachable:
the limit is a configuration constant).  Response bodies are byte lists,
modelled as `List Nat`. -/

def defaultWebMaxBodyBytes : Int := ((1 <<< 20 : Nat) : Int)

/-- Embeds the limit normalisation of newWebToolWithOptions: a non-positive
configured limit falls back to the 1 MiB default. -/
def effectiveMaxBodyBytes (maxBodyBytes : Int) : Int :=
  if maxBodyBytes ≤ 0 then defaultWebMaxBodyBytes else maxBodyBytes

/-- Embeds the body handling of WebTool.Execute:
`io.ReadAll(io.LimitReader(resp.Body, maxBodyBytes+1))` yields at most
`maxBodyBytes+1` bytes; when more than `maxBodyBytes` arrived the fetch is
rejected with the "exceeds" error, otherwise the bytes read are returned
whole. -/
def webReadBody (maxBodyBytes : Int) (body : List Nat) : Except String (List Nat) :=
  let b := body.take (maxBodyBytes + 1).toNat
  if maxBodyBytes < (b.length : Int) then
    .error ("web: response body exceeds " ++ toString maxBodyBytes ++ " bytes limit")
  else
    .ok b

/-! ## MCP tool registration keys (src/internal/mcp/client.go,
Manager.ConnectServer; RegisterMCPTools)

ConnectServer computes `toolKey := fmt.Sprintf("%s_%s", name, tool.Name)`
and stores the tool under it; GetAllTools exposes that key as the
definition name, and RegisterMCPTools registers the wrapper in the agent
registry under the same key unchanged.  No character replacement is applied
anywhere on the key. -/

def connectServerToolKey (serverName toolName : String) : String :=
  serverName ++ "_" ++ toolName

/-! ## Filesystem tool (src/unnamed/part_006, FilesystemTool.Execute)

The tool's filesystem effects against the os.Root-anchored workspace handle
are modelled as an effect trace (`FSOp` list); `filepath.Dir` and
`filepath.Clean` are embedded for slash-separated (unix) paths, following
the Go standard library's lexical cleaning algorithm. -/

inductive FSOp where
  | mkdirAll (dir : List Char) (perm : Nat)
  | writeFile (path : List Char) (content : List Char) (perm : Nat)
deriving DecidableEq, Repr

/-- Embeds the element loop of filepath.Clean: skip empty and "." elements;
".." pops a non-".." top, is dropped at the root, and accumulates otherwise;
anything else is pushed.  The stack is kept reversed.  Path elements are
char lists so that every step reduces computationally. -/
def cleanStack (rooted : Bool) : List (List Char) → List (List Char) → List (List Char)
  | stack, [] => stack
  | stack, e :: rest =>
    if e = [] ∨ e = ['.'] then cleanStack rooted stack rest
    else if e = ['.', '.'] then
      match stack with
      | top :: stk =>
        if top = ['.', '.'] then cleanStack rooted (e :: top :: stk) rest
        else cleanStack rooted stk rest
      | [] =>
        if rooted then cleanStack rooted [] rest
        else cleanStack rooted [e] rest
    else cleanStack rooted (e :: stack) rest

/-- Embeds strings.Split on a single separator character. -/
def splitOnCharAux (sep : Char) : List Char → List Char → List (List Char)
  | cur, [] => [cur.reverse]
  | cur, c :: rest =>
    if c = sep then cur.reverse :: splitOnCharAux sep [] rest
    else splitOnCharAux sep (c :: cur) rest

def splitOnChar (sep : Char) (cs : List Char) : List (List Char) :=
  splitOnCharAux sep [] cs

/-- Embeds strings.Join of path elements with the "/" separator. -/
def intercalateSlash : List (List Char) → List Char
  | [] => []
  | [x] => x
  | x :: y :: rest => x ++ '/' :: intercalateSlash (y :: rest)

def startsWithSlash : List Char → Bool
  | c :: _ => c = '/'
  | [] => false

/-- Embeds filepath.Clean for unix (slash-separated) paths: the lexical
cleaning algorithm of the Go standard library. -/
def pathClean (path : List Char) : List Char :=
  if path = [] then ['.']
  else
    let rooted := startsWithSlash path
    let stack := (cleanStack rooted [] (splitOnChar '/' path)).reverse
    let joined := intercalateSlash stack
    if rooted then '/' :: joined
    else if joined = [] then ['.'] else joined

/-- Embeds filepath.Dir: drop everything past the last separator, then
Clean the remainder (Dir of a separator-free path is "."). -/
def pathDir (path : List Char) : List Char :=
  pathClean ((path.reverse.dropWhile (fun c => c ≠ '/')).reverse)

/-- Embeds the write branch of FilesystemTool.Execute: an empty path
defaults to "."; missing parents are created with mode 0755 when the target
has a parent directory; the file itself is written with mode 0644; the tool
reports "written". -/
def filesystemWrite (pathArg content : List Char) : List FSOp × List Char :=
  let pathStr := if pathArg = [] then ['.'] else pathArg
  let dir := pathDir pathStr
  ((if dir ≠ ['.'] then [FSOp.mkdirAll dir 0o755] else []) ++
    [FSOp.writeFile pathStr content 0o644], "written".data)

structure DirEntry where
  name : String
  isDir : Bool
deriving DecidableEq, Repr

/-- Embeds the list branch of FilesystemTool.Execute: fold over the
directory entries in order, one line per entry, appending "/" to the names
of directories. -/
def filesystemList (entries : List DirEntry) : String :=
  entries.foldl
    (fun out e => out ++ ((if e.isDir then e.name ++ "/" else e.name) ++ "\n")) ""

/-! ## MCP HTTP transport (src/internal/mcp/http_transport.go, HTTPTransport)

The transport state carries the learned session id and last SSE event id;
HTTP itself is effectful, so Call / SendNotification / Close are embedded as
the headers and request they emit from a given state plus the state update
caused by a response's Mcp-Session-Id header. -/

def protocolVersion : String := "2024-11-05"

def protocolVersionHeader : String := "Mcp-Protocol-Version"

def sessionIDHeader : String := "Mcp-Session-Id"

def lastEventIDHeader : String := "Last-Event-ID"

structure HTTPTransportState where
  baseURL : String
  sessionID : String := ""
  lastEventID : String := ""
  closed : Bool := false
deriving DecidableEq, Repr

structure HTTPRequestModel where
  method : String
  url : String
  headers : List (String × String)
deriving DecidableEq, Repr

/-- Embeds the header construction of HTTPTransport.Call: the three fixed
headers plus Mcp-Session-Id whenever a session id has been learned. -/
def callHeaders (t : HTTPTransportState) : List (String × String) :=
  [("Content-Type", "application/json"),
   ("Accept", "application/json, text/event-stream"),
   (protocolVersionHeader, protocolVersion)] ++
  (if t.sessionID ≠ "" then [(sessionIDHeader, t.sessionID)] else [])

/-- Embeds the header construction of HTTPTransport.SendNotification
(identical except that no Accept header is set). -/
def notificationHeaders (t : HTTPTransportState) : List (String × String) :=
  [("Content-Type", "application/json"),
   (protocolVersionHeader, protocolVersion)] ++
  (if t.sessionID ≠ "" then [(sessionIDHeader, t.sessionID)] else [])

/-- Embeds the session learning after `t.client.Do`: a non-empty
Mcp-Session-Id response header replaces the stored session id; an absent
header (Header.Get returns "") leaves it unchanged. -/
def updateSessionID (t : HTTPTransportState) (respSessionID : String) :
    HTTPTransportState :=
  if respSessionID ≠ "" then { t with sessionID := respSessionID } else t

/-- Embeds HTTPTransport.Close: the first Close with a stored session id
issues DELETE <baseURL>/mcp carrying that id; with no session id, or on a
repeated Close (compare-and-set on the closed flag), no request is sent. -/
def closeRequest (t : HTTPTransportState) : Option HTTPRequestModel :=
  if t.closed then none
  else if t.sessionID ≠ "" then
    some { method := "DELETE", url := t.baseURL ++ "/mcp",
           headers := [(sessionIDHeader, t.sessionID)] }
  else none

/-! ## MCP stdio transport demultiplexing (src/internal/mcp/http_transport.go,
StdioTransport.readResponses / Call)

`Call` registers a pending entry (request id ↦ empty single-slot channel)
before sending and then waits on that slot; the single reader goroutine
reads one stdout line at a time and dispatches it.  The pending table and
one reader step are embedded; a line is either unparsable (`none`) or a
decoded message whose `ID *int` pointer is an `Option Int`. -/

structure RpcErrorModel where
  code : Int
  message : String
deriving DecidableEq, Repr

structure ResponseModel where
  id : Int
  result : String := ""
  rpcErr : Option RpcErrorModel := none
deriving DecidableEq, Repr

structure WireMsg where
  id : Option Int := none
  method : String := ""
  result : String := ""
  rpcErr : Option RpcErrorModel := none
deriving DecidableEq, Repr

abbrev PendingTable := List (Int × Option ResponseModel)

inductive ReadAction where
  | delivered (id : Int)
  | slotTaken (id : Int)
  | unexpectedID (id : Int)
  | notificationSkipped
  | parseFailed
deriving DecidableEq, Repr

/-- Embeds one iteration of the single readResponses goroutine for one
stdout line: a malformed line is logged and skipped; a message without an id
is a server notification, logged and dropped; a response whose id has a
pending call is delivered into that call's single-slot channel (or discarded
when the slot is already full because the receiver timed out); a response id
with no pending call is only logged.  None of these outcomes is an error:
the reader continues in every case. -/
def readLine (pending : PendingTable) (line : Option WireMsg) :
    PendingTable × ReadAction :=
  match line with
  | none => (pending, .parseFailed)
  | some msg =>
    match msg.id with
    | none => (pending, .notificationSkipped)
    | some i =>
      match assocLookup pending i with
      | none => (pending, .unexpectedID i)
      | some none =>
        (assocUpdate pending i
          (some { id := i, result := msg.result, rpcErr := msg.rpcErr }),
          .delivered i)
      | some (some _) => (pending, .slotTaken i)

/-! ## Web tool SSRF dial filter (src/internal/agent/tools/web.go,
WebTool.dialContext and isPrivateOrLocalIP)

netip.Addr is modelled as a 32-bit IPv4 or 128-bit IPv6 value carried in a
`Nat`; the classification predicates follow the Go netip implementations
byte for byte.  Effectful stdlib calls are parameters of `dialContext`:
`parsedIP` is the result of netip.ParseAddr on the host (`none` for a DNS
name), `lookupRes` the result of LookupIPAddr (`none` = resolver error),
`dial` the success of a TCP dial to one address. -/

inductive IPAddr where
  | v4 (a : Nat)
  | v6 (a : Nat)
deriving DecidableEq, Repr

def v4Byte (a i : Nat) : Nat := a / 2 ^ (8 * (3 - i)) % 256

def v6Byte (a i : Nat) : Nat := a / 2 ^ (8 * (15 - i)) % 256

def ipv4 (a b c d : Nat) : Nat := ((a * 256 + b) * 256 + c) * 256 + d

/-- Embeds netip.Addr.Unmap: a 4-in-6 mapped address (::ffff:a.b.c.d, the
top 80 bits zero and the next 16 all ones) becomes the IPv4 address. -/
def unmap : IPAddr → IPAddr
  | .v4 a => .v4 a
  | .v6 a => if a / 2 ^ 32 = 0xffff then .v4 (a % 2 ^ 32) else .v6 a

def isLoopback : IPAddr → Bool
  | .v4 a => v4Byte a 0 == 127
  | .v6 a => a == 1

def isPrivate : IPAddr → Bool
  | .v4 a =>
    v4Byte a 0 == 10 ||
    (v4Byte a 0 == 172 && v4Byte a 1 &&& 0xf0 == 16) ||
    (v4Byte a 0 == 192 && v4Byte a 1 == 168)
  | .v6 a => v6Byte a 0 &&& 0xfe == 0xfc

def isLinkLocalUnicast : IPAddr → Bool
  | .v4 a => v4Byte a 0 == 169 && v4Byte a 1 == 254
  | .v6 a => v6Byte a 0 == 0xfe && v6Byte a 1 &&& 0xc0 == 0x80

def isLinkLocalMulticast : IPAddr → Bool
  | .v4 a => v4Byte a 0 == 224 && v4Byte a 1 == 0 && v4Byte a 2 == 0
  | .v6 a => v6Byte a 0 == 0xff && v6Byte a 1 &&& 0x0f == 2

def isMulticastIP : IPAddr → Bool
  | .v4 a => v4Byte a 0 &&& 0xf0 == 0xe0
  | .v6 a => v6Byte a 0 == 0xff

def isUnspecified : IPAddr → Bool
  | .v4 a => a == 0
  | .v6 a => a == 0

/-- Embeds netip.Prefix.Contains for a `bits`-bit prefix over a `width`-bit
address family: the top `bits` bits agree. -/
def prefixContains (width bits base addr : Nat) : Bool :=
  addr / 2 ^ (width - bits) == base / 2 ^ (width - bits)

/-- Embeds blockedIPv4Prefixes of web.go (base address, prefix length). -/
def blockedIPv4Prefixes : List (Nat × Nat) :=
  [(ipv4 0 0 0 0, 8), (ipv4 100 64 0 0, 10), (ipv4 192 0 0 0, 24),
   (ipv4 192 0 2 0, 24), (ipv4 198 18 0 0, 15), (ipv4 198 51 100 0, 24),
   (ipv4 203 0 113 0, 24), (ipv4 240 0 0 0, 4)]

/-- Embeds blockedIPv6Prefixes of web.go: 100::/64, 2001:2::/48,
2001:db8::/32. -/
def blockedIPv6Prefixes : List (Nat × Nat) :=
  [(0x0100 * 2 ^ 112, 64), (0x20010002 * 2 ^ 96, 48), (0x20010db8 * 2 ^ 96, 32)]

/-- Embeds isPrivateOrLocalIP: unmap, the standard classifications, then the
explicit special-use prefix lists per address family. -/
def isPrivateOrLocalIP (ip0 : IPAddr) : Bool :=
  let ip := unmap ip0
  if isLoopback ip || isPrivate ip || isLinkLocalUnicast ip ||
      isLinkLocalMulticast ip || isMulticastIP ip || isUnspecified ip then
    true
  else
    match ip with
    | .v4 a => blockedIPv4Prefixes.any fun p => prefixContains 32 p.2 p.1 a
    | .v6 a => blockedIPv6Prefixes.any fun p => prefixContains 128 p.2 p.1 a

def isSpaceChar (c : Char) : Bool :=
  c == ' ' || c == '\t' || c == '\n' || c == '\x0b' || c == '\x0c' || c == '\r'

/-- Embeds strings.TrimSpace for the ASCII whitespace of hostnames. -/
def goTrimSpace (s : List Char) : List Char :=
  ((s.dropWhile isSpaceChar).reverse.dropWhile isSpaceChar).reverse

/-- Embeds strings.ToLower for the ASCII alphabet of hostnames. -/
def toLowerChars (s : List Char) : List Char := s.map Char.toLower

/-- Embeds the localhost rejection of dialContext: the lowercased host is
"localhost" or has suffix ".localhost". -/
def isLocalhostName (host : List Char) : Bool :=
  toLowerChars host == "localhost".data ||
    (".localhost".data.isSuffixOf (toLowerChars host))

inductive DialOutcome where
  | conn (ip : IPAddr)
  | connRaw
  | errBlockedHost
  | errLookupFailed
  | errNoIPs
  | errAllPrivate
  | errDialFailed
  | errUnreachable
deriving DecidableEq, Repr

/-- Embeds the resolved-address loop of WebTool.dialContext: unmap each
address, skip blocked ones, dial the rest in order and return the first
successful connection; afterwards report the all-private error when no
public address was seen, else the last dial error (the no-error fallback is
unreachable).  The first component collects the addresses actually dialed. -/
def dialLoop (dial : IPAddr → Bool) :
    List IPAddr → Bool → Bool → List IPAddr → List IPAddr × DialOutcome
  | [], publicFound, lastErrSet, attempts =>
    (attempts,
      if publicFound = false then .errAllPrivate
      else if lastErrSet then .errDialFailed
      else .errUnreachable)
  | ipa :: rest, publicFound, lastErrSet, attempts =>
    let ip := unmap ipa
    if isPrivateOrLocalIP ip then dialLoop dial rest publicFound lastErrSet attempts
    else if dial ip then (attempts ++ [ip], .conn ip)
    else dialLoop dial rest true true (attempts ++ [ip])

/-- Embeds WebTool.dialContext (filtering path).  With the private filter
disabled the address is dialed unfiltered (`connRaw`); otherwise the host is
trimmed, localhost names are rejected, a literal IP is checked against the
filter and dialed directly, and a DNS name is resolved first, then
`dialLoop` dials only non-blocked resolved addresses. -/
def dialContext (allowPrivate : Bool) (host : List Char)
    (parsedIP : Option IPAddr) (lookupRes : Option (List IPAddr))
    (dial : IPAddr → Bool) : List IPAddr × DialOutcome :=
  if allowPrivate then ([], .connRaw)
  else
    let trimmed := goTrimSpace host
    if isLocalhostName trimmed then ([], .errBlockedHost)
    else
      match parsedIP with
      | some ip =>
        if isPrivateOrLocalIP ip then ([], .errBlockedHost)
        else ([ip], if dial ip then .conn ip else .errDialFailed)
      | none =>
        match lookupRes with
        | none => ([], .errLookupFailed)
        | some ips =>
          if ips.isEmpty then ([], .errNoIPs)
          else dialLoop dial ips false false []

/-! Proofs: the claim theorems, their witnesses, and supporting lemmas. -/

theorem assocLookup_update_self {κ α : Type} [DecidableEq κ]
    (l : List (κ × α)) (k : κ) (v w : α) (h : assocLookup l k = some w) :
    assocLookup (assocUpdate l k v) k = some v := by
  induction l with
  | nil => simp [assocLookup] at h
  | cons p rest ih =>
    obtain ⟨n, x⟩ := p
    by_cases hk : n = k
    · simp [assocLookup, assocUpdate, hk]
    · simp [assocLookup, assocUpdate, hk] at h ⊢
      exact ih h

theorem assocLookup_update_ne {κ α : Type} [DecidableEq κ]
    (l : List (κ × α)) (k k' : κ) (v : α) (h : k' ≠ k) :
    assocLookup (assocUpdate l k v) k' = assocLookup l k' := by
  induction l with
  | nil => simp [assocUpdate]
  | cons p rest ih =>
    obtain ⟨n, x⟩ := p
    by_cases hk : n = k
    · subst hk
      simp only [assocUpdate, if_pos rfl, assocLookup, if_neg (Ne.symm h)]
    · simp only [assocUpdate, if_neg hk, assocLookup]
      split <;> simp [ih]

theorem assocLookup_eq_none_of_not_mem {κ α : Type} [DecidableEq κ]
    (l : List (κ × α)) (k : κ) (h : ∀ p ∈ l, p.1 ≠ k) :
    assocLookup l k = none := by
  induction l with
  | nil => rfl
  | cons p rest ih =>
    obtain ⟨n, x⟩ := p
    have hn : n ≠ k := h (n, x) (List.mem_cons_self _ _)
    simp [assocLookup, hn]
    exact ih fun q hq => h q (List.mem_cons_of_mem _ hq)

theorem scanIdx_bounds (runes : List Char) (c : Char) :
    ∀ n k, scanIdx runes c n = some k → 1 ≤ k ∧ k ≤ n := by
  intro n
  induction n with
  | zero => intro k h; simp [scanIdx] at h
  | succ m ih =>
    intro k h
    simp only [scanIdx] at h
    split at h
    · cases h; omega
    · have := ih k h; omega

theorem splitStep_pos (runes : List Char) (maxLen : Nat) (h : 1 ≤ maxLen) :
    1 ≤ splitStep runes maxLen := by
  unfold splitStep
  cases hn : scanIdx runes '\n' maxLen with
  | none =>
    simp only [hn, Option.getD_none, if_pos rfl]
    cases hs : scanIdx runes ' ' maxLen with
    | none => simpa using h
    | some k => simpa using (scanIdx_bounds runes ' ' maxLen k hs).1
  | some k =>
    have hb := scanIdx_bounds runes '\n' maxLen k hn
    by_cases hk : k = maxLen
    · simp only [hn, Option.getD_some, hk, if_pos rfl]
      cases hs : scanIdx runes ' ' maxLen with
      | none => simpa using h
      | some m => simpa using (scanIdx_bounds runes ' ' maxLen m hs).1
    · simp only [hn, Option.getD_some, if_neg hk]
      exact hb.1

theorem splitStep_le (runes : List Char) (maxLen : Nat) :
    splitStep runes maxLen ≤ maxLen := by
  unfold splitStep
  cases hn : scanIdx runes '\n' maxLen with
  | none =>
    simp only [hn, Option.getD_none, if_pos rfl]
    cases hs : scanIdx runes ' ' maxLen with
    | none => simp
    | some k => simpa using (scanIdx_bounds runes ' ' maxLen k hs).2
  | some k =>
    have hb := scanIdx_bounds runes '\n' maxLen k hn
    by_cases hk : k = maxLen
    · simp only [hn, Option.getD_some, hk, if_pos rfl]
      cases hs : scanIdx runes ' ' maxLen with
      | none => simp
      | some m => simpa using (scanIdx_bounds runes ' ' maxLen m hs).2
    · simp only [hn, Option.getD_some, if_neg hk]
      exact hb.2

theorem splitLoop_join (maxLen : Nat) (hpos : 1 ≤ maxLen) :
    ∀ fuel runes, runes.length ≤ fuel →
      (splitLoop maxLen fuel runes).flatten = runes := by
  intro fuel
  induction fuel with
  | zero =>
    intro runes h
    have : runes = [] := List.eq_nil_of_length_eq_zero (Nat.le_zero.mp h)
    simp [this, splitLoop]
  | succ f ih =>
    intro runes h
    by_cases he : runes = []
    · simp [he, splitLoop]
    · by_cases hl : runes.length ≤ maxLen
      · simp [splitLoop, he, hl]
      · have hstep := splitStep_pos runes maxLen hpos
        have hdrop : (runes.drop (splitStep runes maxLen)).length ≤ f := by
          rw [List.length_drop]
          omega
        simp only [splitLoop, if_neg he, if_neg hl, List.flatten_cons]
        rw [ih _ hdrop, List.take_append_drop]

theorem splitLoop_chunk_le (maxLen : Nat) (hpos : 1 ≤ maxLen) :
    ∀ fuel runes, runes.length ≤ fuel →
      ∀ chunk ∈ splitLoop maxLen fuel runes, chunk.length ≤ maxLen := by
  intro fuel
  induction fuel with
  | zero => intro runes _ chunk hc; simp [splitLoop] at hc
  | succ f ih =>
    intro runes h chunk hc
    by_cases he : runes = []
    · simp [he, splitLoop] at hc
    · by_cases hl : runes.length ≤ maxLen
      · simp [splitLoop, he, hl] at hc
        simpa [hc] using hl
      · have hstep := splitStep_pos runes maxLen hpos
        have hle := splitStep_le runes maxLen
        have hdrop : (runes.drop (splitStep runes maxLen)).length ≤ f := by
          rw [List.length_drop]
          omega
        simp only [splitLoop, if_neg he, if_neg hl, List.mem_cons] at hc
        rcases hc with hc | hc
        · subst hc
          rw [List.length_take]
          exact le_trans (Nat.min_le_left _ _) hle
        · exact ih _ hdrop chunk hc

theorem scanIdx_eq_none_of_not_mem (runes : List Char) (c : Char)
    (h : c ∉ runes) : ∀ n, scanIdx runes c n = none := by
  intro n
  induction n with
  | zero => rfl
  | succ m ih =>
    simp only [scanIdx, ih]
    split
    · next hget =>
      exact absurd (List.get?_mem hget) h
    · rfl

theorem splitLoop_step_eq (maxLen fuel : Nat) (runes : List Char)
    (he : runes ≠ []) (hl : ¬ runes.length ≤ maxLen) :
    splitLoop maxLen (fuel + 1) runes =
      runes.take (splitStep runes maxLen)
        :: splitLoop maxLen fuel (runes.drop (splitStep runes maxLen)) := by
  simp [splitLoop, he, hl]

theorem splitLoop_done (maxLen fuel : Nat) (runes : List Char)
    (he : runes ≠ []) (hl : runes.length ≤ maxLen) :
    splitLoop maxLen (fuel + 1) runes = [runes] := by
  simp [splitLoop, he, hl]

theorem not_mem_replicate_of_ne {c d : Char} (h : c ≠ d) (n : Nat) :
    c ∉ List.replicate n d :=
  fun hm => h (List.eq_of_mem_replicate hm)

theorem replicate_char_ne_nil (c : Char) (n : Nat) (h : n ≠ 0) :
    List.replicate n c ≠ [] := by
  intro he
  have := congrArg List.length he
  rw [List.length_replicate, List.length_nil] at this
  exact h this

theorem splitStep_replicate_2500 :
    splitStep (List.replicate 2500 'a') 2000 = 2000 := by
  have h1 : ('\n' : Char) ∉ List.replicate 2500 'a' :=
    not_mem_replicate_of_ne (by decide) 2500
  have h2 : (' ' : Char) ∉ List.replicate 2500 'a' :=
    not_mem_replicate_of_ne (by decide) 2500
  simp only [splitStep, scanIdx_eq_none_of_not_mem _ _ h1 2000,
    scanIdx_eq_none_of_not_mem _ _ h2 2000, Option.getD_none, if_pos rfl,
    if_true]

theorem splitMessage_concrete_2500 :
    splitMessage (List.replicate 2500 'a') 2000 =
      [List.replicate 2000 'a', List.replicate 500 'a'] := by
  have hne : List.replicate 2500 'a' ≠ [] := replicate_char_ne_nil 'a' 2500 (by norm_num)
  have hlen : ¬ (List.replicate 2500 'a').length ≤ 2000 := by
    rw [List.length_replicate]
    norm_num
  have hne500 : List.replicate 500 'a' ≠ [] := replicate_char_ne_nil 'a' 500 (by norm_num)
  have hlen500 : (List.replicate 500 'a').length ≤ 2000 := by
    rw [List.length_replicate]
    norm_num
  unfold splitMessage
  rw [if_neg hlen, List.length_replicate]
  rw [show (2500 : Nat) = 2499 + 1 from rfl,
    splitLoop_step_eq 2000 2499 _ hne hlen, splitStep_replicate_2500,
    List.take_replicate, List.drop_replicate,
    show min 2000 2500 = 2000 from by norm_num,
    show 2500 - 2000 = 500 from by norm_num,
    show (2499 : Nat) = 2498 + 1 from rfl,
    splitLoop_done 2000 2498 _ hne500 hlen500]

/-- C7: for every content string and positive maxLen, `splitMessage` yields
chunks of at most maxLen runes whose concatenation is the input (newline
then space preferred as split points, per `splitStep`); a 2500-character
single-run input at maxLen 2000 yields exactly the two chunks of 2000 and
500 characters. -/
theorem splitMessage_spec (content : List Char) (maxLen : Nat) (hpos : 0 < maxLen) :
    (∀ chunk ∈ splitMessage content maxLen, chunk.length ≤ maxLen) ∧
    (splitMessage content maxLen).flatten = content ∧
    splitMessage (List.replicate 2500 'a') 2000 =
      [List.replicate 2000 'a', List.replicate 500 'a'] ∧
    (splitMessage (List.replicate 2500 'a') 2000).length = 2 := by
  refine ⟨?_, ?_, splitMessage_concrete_2500, by rw [splitMessage_concrete_2500]; rfl⟩
  · intro chunk hc
    unfold splitMessage at hc
    split at hc
    · next hle =>
      simp at hc
      subst hc
      exact hle
    · exact splitLoop_chunk_le maxLen hpos content.length content le_rfl chunk hc
  · unfold splitMessage
    split
    · simp
    · exact splitLoop_join maxLen hpos content.length content le_rfl

theorem splitMessage_spec_witness :
    0 < 3 ∧ (splitMessage [ 'h', 'i' ] 3).flatten
      = [ 'h', 'i' ] :=
  ⟨by decide, (splitMessage_spec [ 'h', 'i' ] 3 (by decide)).2.1⟩

/-- C10: Registry.Execute rejects an empty name with "tool name is required"
and an unregistered name with "tool not found"; Registry.Get returns nil for
an unregistered name.  The statement is quantified over every registry `r`
(hence over every possible tool execute function), so the error results
cannot depend on — and therefore never invoke — any tool's Execute. -/
theorem registry_execute_validation (r : List (String × ToolImpl)) (name : String)
    (args : List (String × String)) :
    (name = "" → registryExecute r name args = .error "tool name is required") ∧
    ((∀ p ∈ r, p.1 ≠ name) →
      registryGet r name = none ∧
      (name ≠ "" → registryExecute r name args = .error "tool not found")) := by
  constructor
  · intro h
    simp [registryExecute, h]
  · intro h
    have hl := assocLookup_eq_none_of_not_mem r name h
    exact ⟨hl, fun hne => by simp [registryExecute, hne, hl]⟩

theorem registry_execute_validation_witness :
    registryExecute [("echo", ⟨"echo", "", fun _ => Except.ok "hi"⟩)] "" [] =
      .error "tool name is required" ∧
    registryGet [("echo", ⟨"echo", "", fun _ => Except.ok "hi"⟩)] "missing" = none ∧
    registryExecute [("echo", ⟨"echo", "", fun _ => Except.ok "hi"⟩)] "missing" [] =
      .error "tool not found" := by
  have hmem : ∀ p ∈ [("echo", (⟨"echo", "", fun _ => Except.ok "hi"⟩ : ToolImpl))],
      p.1 ≠ "missing" := by
    intro p hp
    rcases List.mem_singleton.mp hp with rfl
    decide
  refine ⟨(registry_execute_validation _ "" []).1 rfl, ?_, ?_⟩
  · exact ((registry_execute_validation _ "missing" []).2 hmem).1
  · exact ((registry_execute_validation _ "missing" []).2 hmem).2 (by decide)

/-- C8: an outbound message with a registered subscriber is enqueued on that
subscriber's queue only (every other subscriber's queue is unchanged), and a
message whose channel has no subscriber is dropped, delivered to nobody. -/
theorem hub_outbound_dispatch (cap : Nat) (subs : List (String × List Outbound))
    (out : Outbound) :
    (∀ q, assocLookup subs out.channel = some q → q.length < cap →
      routeStep cap subs out = .delivered (assocUpdate subs out.channel (q ++ [out])) ∧
      ∀ n, n ≠ out.channel →
        assocLookup (assocUpdate subs out.channel (q ++ [out])) n = assocLookup subs n) ∧
    (assocLookup subs out.channel = none → routeStep cap subs out = .dropped) := by
  constructor
  · intro q hq hlt
    refine ⟨?_, fun n hn => assocLookup_update_ne subs out.channel n (q ++ [out]) hn⟩
    simp [routeStep, hq, chanSend, hlt]
  · intro h
    simp [routeStep, h]

theorem hub_outbound_dispatch_witness :
    routeStep 8 [("telegram", []), ("discord", [])]
        { channel := "discord", chatID := "c", content := "x" } =
      .delivered [("telegram", []),
        ("discord", [{ channel := "discord", chatID := "c", content := "x" }])] ∧
    assocLookup (assocUpdate [("telegram", ([] : List Outbound)), ("discord", [])]
        "discord" [{ channel := "discord", chatID := "c", content := "x" }])
        "telegram" = some [] ∧
    routeStep 8 [("telegram", []), ("discord", [])]
        { channel := "none", chatID := "c", content := "x" } = .dropped := by
  refine ⟨?_, ?_, ?_⟩
  · exact ((hub_outbound_dispatch 8 [("telegram", []), ("discord", [])]
      { channel := "discord", chatID := "c", content := "x" }).1 [] rfl (by decide)).1
  · exact (((hub_outbound_dispatch 8 [("telegram", []), ("discord", [])]
      { channel := "discord", chatID := "c", content := "x" }).1 [] rfl (by decide)).2
      "telegram" (by decide)).trans rfl
  · exact (hub_outbound_dispatch 8 [("telegram", []), ("discord", [])]
      { channel := "none", chatID := "c", content := "x" }).2 rfl

/-- C2 counterexample: with subscriber "http" registered and its queue full
(capacity 1, one message buffered), the router neither drops the dequeued
message nor proceeds: the send blocks (until space or cancellation).  The
claimed drop-with-warning on subscriber overflow does not occur. -/
theorem hub_full_queue_blocks :
    routeStep 1 [("http", [{ channel := "http", chatID := "c", content := "m0" }])]
        { channel := "http", chatID := "c", content := "m1" } = .blocked ∧
    routeStep 1 [("http", [{ channel := "http", chatID := "c", content := "m0" }])]
        { channel := "http", chatID := "c", content := "m1" } ≠ .dropped := by
  decide

/-- C2 (amended): when the registered subscriber's bounded queue is full the
router blocks (the message is not dropped; only unregistered channels drop,
see `routeStep`); with a free slot the message is enqueued; and an inbound
channel send either enqueues the message in full or blocks the producer —
inbound messages are never dropped. -/
theorem hub_backpressure_amended (cap : Nat) (subs : List (String × List Outbound))
    (out : Outbound) (q : List Outbound) (hq : assocLookup subs out.channel = some q) :
    (cap ≤ q.length → routeStep cap subs out = .blocked) ∧
    (q.length < cap →
      routeStep cap subs out = .delivered (assocUpdate subs out.channel (q ++ [out]))) ∧
    (∀ (inCap : Nat) (inQ : List Inbound) (msg : Inbound),
      chanSend inCap inQ msg = .enqueued (inQ ++ [msg]) ∨
      (chanSend inCap inQ msg = .blocked ∧ inCap ≤ inQ.length)) := by
  refine ⟨?_, ?_, ?_⟩
  · intro h
    simp [routeStep, hq, chanSend, Nat.not_lt.mpr h]
  · intro h
    simp [routeStep, hq, chanSend, h]
  · intro inCap inQ msg
    by_cases h : inQ.length < inCap
    · exact Or.inl (by simp [chanSend, h])
    · exact Or.inr ⟨by simp [chanSend, h], Nat.not_lt.mp h⟩

theorem hub_backpressure_amended_witness :
    routeStep 1 [("http", [{ channel := "http", chatID := "c", content := "m0" }])]
        { channel := "http", chatID := "c", content := "m1" } = .blocked ∧
    chanSend 4 ([] : List Inbound)
        { channel := "web", senderID := "s", chatID := "c", content := "hi" } =
      .enqueued [{ channel := "web", senderID := "s", chatID := "c", content := "hi" }] := by
  constructor
  · exact (hub_backpressure_amended 1
      [("http", [{ channel := "http", chatID := "c", content := "m0" }])]
      { channel := "http", chatID := "c", content := "m1" }
      [{ channel := "http", chatID := "c", content := "m0" }] rfl).1 (by decide)
  · have h := (hub_backpressure_amended 1
      [("http", [{ channel := "http", chatID := "c", content := "m0" }])]
      { channel := "http", chatID := "c", content := "m1" }
      [{ channel := "http", chatID := "c", content := "m0" }] rfl).2.2 4 []
      { channel := "web", senderID := "s", chatID := "c", content := "hi" }
    exact h.resolve_right fun hh => absurd hh.2 (by decide)

/-- C4: a successful response whose body exceeds the byte limit is an error
(never a truncated body); a body at or under the limit is returned in full;
the default limit is 1 MiB. -/
theorem web_body_limit (maxBodyBytes : Int) (body : List Nat)
    (hpos : 0 < maxBodyBytes) :
    (maxBodyBytes < (body.length : Int) →
      webReadBody maxBodyBytes body =
        .error ("web: response body exceeds " ++ toString maxBodyBytes ++
          " bytes limit")) ∧
    ((body.length : Int) ≤ maxBodyBytes →
      webReadBody maxBodyBytes body = .ok body) ∧
    defaultWebMaxBodyBytes = 1048576 ∧
    effectiveMaxBodyBytes defaultWebMaxBodyBytes = 1048576 := by
  have hdef : defaultWebMaxBodyBytes = 1048576 := by
    norm_num [defaultWebMaxBodyBytes, Nat.shiftLeft_eq]
  have htake : (maxBodyBytes + 1).toNat = maxBodyBytes.toNat + 1 := by omega
  refine ⟨?_, ?_, hdef, ?_⟩
  · intro h
    have hbl : maxBodyBytes.toNat + 1 ≤ body.length := by omega
    have hlen : (body.take (maxBodyBytes.toNat + 1)).length = maxBodyBytes.toNat + 1 := by
      rw [List.length_take]
      omega
    simp only [webReadBody, htake]
    rw [if_pos (by rw [hlen]; omega)]
  · intro h
    have hbl : body.length ≤ maxBodyBytes.toNat := by omega
    have hall : body.take (maxBodyBytes.toNat + 1) = body :=
      List.take_of_length_le (by omega)
    simp only [webReadBody, htake, hall]
    rw [if_neg (by omega)]
  · rw [effectiveMaxBodyBytes, if_neg (by rw [hdef]; norm_num), hdef]

theorem web_body_limit_witness :
    (0 : Int) < 32 ∧
    (32 : Int) < ((List.replicate 128 (0 : Nat)).length : Int) ∧
    webReadBody 32 (List.replicate 128 0) =
      .error ("web: response body exceeds " ++ toString (32 : Int) ++ " bytes limit") ∧
    webReadBody 32 (List.replicate 16 0) = .ok (List.replicate 16 0) := by
  have h128 : (List.replicate 128 (0 : Nat)).length = 128 := List.length_replicate _ _
  have h16 : (List.replicate 16 (0 : Nat)).length = 16 := List.length_replicate _ _
  refine ⟨by norm_num, by rw [h128]; norm_num, ?_, ?_⟩
  · exact (web_body_limit 32 (List.replicate 128 0) (by norm_num)).1
      (by rw [h128]; norm_num)
  · exact (web_body_limit 32 (List.replicate 16 0) (by norm_num)).2.1
      (by rw [h16]; norm_num)

/-- C1 (code bug evidence): the key actually registered for server "github"
and tool "search_repositories" is "github_search_repositories", which is not
the `mcp_`-prefixed key (`mcp_github_search_repositories`) that MCP.md
documents and that would guarantee disjointness from native tool names. -/
theorem mcp_tool_key_missing_prefix :
    connectServerToolKey "github" "search_repositories" =
      "github_search_repositories" ∧
    connectServerToolKey "github" "search_repositories" ≠
      "mcp_github_search_repositories" := by
  constructor
  · rfl
  · decide

theorem string_foldl_append (l : List String) :
    ∀ acc : String,
      l.foldl (fun r s => r ++ s) acc = acc ++ l.foldl (fun r s => r ++ s) "" := by
  induction l with
  | nil => intro acc; simp
  | cons x rest ih =>
    intro acc
    rw [List.foldl_cons, List.foldl_cons, ih ("" ++ x), ih (acc ++ x),
      String.empty_append, String.append_assoc]

theorem string_join_cons (x : String) (l : List String) :
    String.join (x :: l) = x ++ String.join l := by
  show (x :: l).foldl (fun r s => r ++ s) "" = x ++ l.foldl (fun r s => r ++ s) ""
  rw [List.foldl_cons, String.empty_append, string_foldl_append l x]

theorem foldl_lines_eq_join {β : Type} (g : β → String) (l : List β) :
    ∀ acc : String,
      l.foldl (fun out e => out ++ g e) acc = acc ++ String.join (l.map g) := by
  induction l with
  | nil => intro acc; simp [String.join]
  | cons e rest ih =>
    intro acc
    rw [List.foldl_cons, List.map_cons, string_join_cons, ih (acc ++ g e),
      String.append_assoc]

/-- C9: a write to a path with a parent directory produces exactly the
mkdirAll(parent, 0755) then writeFile(path, 0644) effects against the
workspace root and reports "written"; a parentless path skips the mkdir;
and list output is the concatenation of one line per directory entry, with
a "/" suffix on directory names. -/
theorem filesystem_write_list_spec (path content : List Char) (hp : path ≠ [])
    (entries : List DirEntry) :
    (pathDir path ≠ ['.'] →
      filesystemWrite path content =
        ([FSOp.mkdirAll (pathDir path) 0o755, FSOp.writeFile path content 0o644],
          "written".data)) ∧
    (pathDir path = ['.'] →
      filesystemWrite path content =
        ([FSOp.writeFile path content 0o644], "written".data)) ∧
    filesystemList entries =
      String.join (entries.map fun e =>
        (if e.isDir then e.name ++ "/" else e.name) ++ "\n") := by
  refine ⟨?_, ?_, ?_⟩
  · intro hd
    simp [filesystemWrite, hp, hd]
  · intro hd
    simp [filesystemWrite, hp, hd]
  · rw [filesystemList, foldl_lines_eq_join _ entries "", String.empty_append]

theorem filesystem_write_list_spec_witness :
    pathDir "memory/MEMORY.md".data = "memory".data ∧
    filesystemWrite "memory/MEMORY.md".data "note".data =
      ([FSOp.mkdirAll "memory".data 0o755,
        FSOp.writeFile "memory/MEMORY.md".data "note".data 0o644], "written".data) ∧
    filesystemList [⟨"memory", true⟩, ⟨"SOUL.md", false⟩] = "memory/\nSOUL.md\n" := by
  have hd : pathDir "memory/MEMORY.md".data = "memory".data := by decide
  refine ⟨hd, ?_, ?_⟩
  · rw [← hd]
    exact (filesystem_write_list_spec "memory/MEMORY.md".data "note".data (by decide)
      []).1 (by rw [hd]; decide)
  · have h := (filesystem_write_list_spec "x".data "y".data (by decide)
      [⟨"memory", true⟩, ⟨"SOUL.md", false⟩]).2.2
    rw [h]
    decide

/-- C6: once a response carries Mcp-Session-Id S (non-empty), the stored id
is S and survives responses without a session header; every subsequent Call
and SendNotification carries the header (Mcp-Session-Id, S); and Close on
the not-yet-closed transport issues DELETE <baseURL>/mcp with that header. -/
theorem http_session_persistence (t : HTTPTransportState) (S : String)
    (hS : S ≠ "") :
    (updateSessionID t S).sessionID = S ∧
    updateSessionID (updateSessionID t S) "" = updateSessionID t S ∧
    (sessionIDHeader, S) ∈ callHeaders (updateSessionID t S) ∧
    (sessionIDHeader, S) ∈ notificationHeaders (updateSessionID t S) ∧
    ((updateSessionID t S).closed = false →
      closeRequest (updateSessionID t S) =
        some { method := "DELETE", url := t.baseURL ++ "/mcp",
               headers := [(sessionIDHeader, S)] }) := by
  have hset : updateSessionID t S = { t with sessionID := S } := by
    simp [updateSessionID, hS]
  refine ⟨by rw [hset], by simp [updateSessionID], ?_, ?_, ?_⟩
  · rw [hset]
    simp [callHeaders, hS]
  · rw [hset]
    simp [notificationHeaders, hS]
  · intro hc
    rw [hset] at hc ⊢
    simp only [closeRequest] at hc ⊢
    simp [hc, hS]

theorem http_session_persistence_witness :
    ("sess-1" : String) ≠ "" ∧
    (updateSessionID { baseURL := "http://srv" } "sess-1").sessionID = "sess-1" ∧
    (sessionIDHeader, "sess-1") ∈
      callHeaders (updateSessionID { baseURL := "http://srv" } "sess-1") ∧
    closeRequest (updateSessionID { baseURL := "http://srv" } "sess-1") =
      some { method := "DELETE", url := "http://srv" ++ "/mcp",
             headers := [(sessionIDHeader, "sess-1")] } := by
  have h := http_session_persistence { baseURL := "http://srv" } "sess-1" (by decide)
  exact ⟨by decide, h.1, h.2.2.1, h.2.2.2.2 (by decide)⟩

/-- C5: the reader dispatches a response only to the pending call whose
request id equals the response id (every other table entry is untouched);
two responses arriving in the opposite order of their requests each land in
their own call's slot; and a line carrying a method but no id leaves the
table unchanged and is not an error (it is skipped). -/
theorem stdio_demux_by_id (pending : PendingTable) (msg : WireMsg)
    (i j : Int) (ri rj : String) (hne : i ≠ j)
    (hi : assocLookup pending i = some none)
    (hj : assocLookup pending j = some none) :
    (∀ k, msg.id = some k → ∀ n, n ≠ k →
      assocLookup (readLine pending (some msg)).1 n = assocLookup pending n) ∧
    (msg.id = none →
      readLine pending (some msg) = (pending, .notificationSkipped)) ∧
    (assocLookup
        (readLine (readLine pending (some { id := some j, result := rj })).1
          (some { id := some i, result := ri })).1 i =
      some (some { id := i, result := ri }) ∧
     assocLookup
        (readLine (readLine pending (some { id := some j, result := rj })).1
          (some { id := some i, result := ri })).1 j =
      some (some { id := j, result := rj })) := by
  refine ⟨?_, ?_, ?_⟩
  · intro k hk n hn
    simp only [readLine, hk]
    cases hl : assocLookup pending k with
    | none => rfl
    | some slot =>
      cases slot with
      | none => exact assocLookup_update_ne pending k n _ hn
      | some r => rfl
  · intro h
    simp [readLine, h]
  · have h1 : (readLine pending (some { id := some j, result := rj })).1 =
        assocUpdate pending j (some { id := j, result := rj }) := by
      simp [readLine, hj]
    have hi1 : assocLookup (assocUpdate pending j
        (some { id := j, result := rj })) i = some none := by
      rw [assocLookup_update_ne pending j i _ hne]
      exact hi
    have h2 : (readLine (assocUpdate pending j (some { id := j, result := rj }))
        (some { id := some i, result := ri })).1 =
        assocUpdate (assocUpdate pending j (some { id := j, result := rj })) i
          (some { id := i, result := ri }) := by
      simp [readLine, hi1]
    rw [h1, h2]
    constructor
    · exact assocLookup_update_self _ i _ none hi1
    · rw [assocLookup_update_ne _ i j _ (Ne.symm hne)]
      exact assocLookup_update_self _ j _ none hj

theorem stdio_demux_by_id_witness :
    (1 : Int) ≠ 2 ∧
    assocLookup
        (readLine (readLine [((1 : Int), none), (2, none)]
            (some { id := some 2, result := "r2" })).1
          (some { id := some 1, result := "r1" })).1 1 =
      some (some { id := 1, result := "r1" }) ∧
    assocLookup
        (readLine (readLine [((1 : Int), none), (2, none)]
            (some { id := some 2, result := "r2" })).1
          (some { id := some 1, result := "r1" })).1 2 =
      some (some { id := 2, result := "r2" }) ∧
    readLine [((1 : Int), none), (2, none)]
        (some { id := none, method := "notifications/message" }) =
      ([((1 : Int), none), (2, none)], .notificationSkipped) := by
  have h := stdio_demux_by_id [((1 : Int), none), (2, none)]
    { id := none, method := "notifications/message" } 1 2 "r1" "r2"
    (by decide) rfl rfl
  exact ⟨by decide, h.2.2.1, h.2.2.2, h.2.1 rfl⟩

theorem unmap_v6_eq (a : Nat) :
    unmap (IPAddr.v6 a) =
      if a / 2 ^ 32 = 0xffff then IPAddr.v4 (a % 2 ^ 32) else IPAddr.v6 a := rfl

theorem unmap_unmap (ip : IPAddr) : unmap (unmap ip) = unmap ip := by
  cases ip with
  | v4 a => rfl
  | v6 a =>
    rw [unmap_v6_eq]
    by_cases h : a / 2 ^ 32 = 0xffff
    · rw [if_pos h]
      rfl
    · rw [if_neg h, unmap_v6_eq, if_neg h]

theorem isPrivateOrLocalIP_unmap (ip : IPAddr) :
    isPrivateOrLocalIP (unmap ip) = isPrivateOrLocalIP ip := by
  simp only [isPrivateOrLocalIP]
  rw [unmap_unmap]

theorem bool_eq_false_of_not_true {b : Bool} (h : ¬ b = true) : b = false := by
  cases hb : b with
  | true => exact absurd hb h
  | false => rfl

theorem dialLoop_attempts_not_blocked (dial : IPAddr → Bool) :
    ∀ (ips : List IPAddr) (pf le : Bool) (attempts : List IPAddr),
      (∀ ip ∈ attempts, isPrivateOrLocalIP ip = false) →
      ∀ ip ∈ (dialLoop dial ips pf le attempts).1, isPrivateOrLocalIP ip = false := by
  intro ips
  induction ips with
  | nil =>
    intro pf le attempts hacc ip hip
    exact hacc ip hip
  | cons ipa rest ih =>
    intro pf le attempts hacc ip hip
    by_cases hb : isPrivateOrLocalIP (unmap ipa)
    · simp only [dialLoop, if_pos hb] at hip
      exact ih pf le attempts hacc ip hip
    · have hb2 : isPrivateOrLocalIP (unmap ipa) = false := bool_eq_false_of_not_true hb
      have hext : ∀ q ∈ attempts ++ [unmap ipa], isPrivateOrLocalIP q = false := by
        intro q hq
        rcases List.mem_append.mp hq with h | h
        · exact hacc q h
        · rcases List.mem_singleton.mp h with rfl
          exact hb2
      by_cases hd : dial (unmap ipa)
      · simp only [dialLoop, if_neg hb, if_pos hd] at hip
        exact hext ip hip
      · simp only [dialLoop, if_neg hb, if_neg hd] at hip
        exact ih true true (attempts ++ [unmap ipa]) hext ip hip

theorem dialLoop_all_blocked (dial : IPAddr → Bool) :
    ∀ (ips : List IPAddr) (le : Bool) (attempts : List IPAddr),
      (∀ ip ∈ ips, isPrivateOrLocalIP ip = true) →
      dialLoop dial ips false le attempts = (attempts, .errAllPrivate) := by
  intro ips
  induction ips with
  | nil => intro le attempts _; simp [dialLoop]
  | cons ipa rest ih =>
    intro le attempts h
    have hb : isPrivateOrLocalIP (unmap ipa) = true := by
      rw [isPrivateOrLocalIP_unmap]
      exact h ipa (List.mem_cons_self _ _)
    simp only [dialLoop, if_pos hb]
    exact ih le attempts fun ip hip => h ip (List.mem_cons_of_mem _ hip)

/-- C3: with the private-address filter enabled, dialContext never dials a
blocked address (every address in the attempt list passes the filter, on
every path); a DNS-name host is resolved before any connection — a resolver
failure dials nothing; and a DNS-name host all of whose resolved addresses
are blocked produces an error (the all-private error, or the blocked-host
error for localhost names) with nothing dialed. -/
theorem web_dial_ssrf (host : List Char) (parsedIP : Option IPAddr)
    (lookupRes : Option (List IPAddr)) (dial : IPAddr → Bool)
    (ips : List IPAddr) :
    (∀ ip ∈ (dialContext false host parsedIP lookupRes dial).1,
      isPrivateOrLocalIP ip = false) ∧
    (dialContext false host none none dial).1 = [] ∧
    (lookupRes = some ips → ips ≠ [] →
      (∀ ip ∈ ips, isPrivateOrLocalIP ip = true) →
      dialContext false host none lookupRes dial = ([], .errBlockedHost) ∨
      dialContext false host none lookupRes dial = ([], .errAllPrivate)) := by
  refine ⟨?_, ?_, ?_⟩
  · intro ip hip
    by_cases hloc : isLocalhostName (goTrimSpace host)
    · simp [dialContext, hloc] at hip
    · cases parsedIP with
      | some p =>
        by_cases hb : isPrivateOrLocalIP p
        · simp [dialContext, hloc, hb] at hip
        · simp [dialContext, hloc, hb] at hip
          rcases hip with rfl
          exact bool_eq_false_of_not_true hb
      | none =>
        cases lookupRes with
        | none => simp [dialContext, hloc] at hip
        | some resolved =>
          by_cases hemp : resolved.isEmpty
          · simp [dialContext, hloc, hemp] at hip
          · simp [dialContext, hloc, hemp] at hip
            exact dialLoop_attempts_not_blocked dial resolved false false []
              (by intro q hq; simp at hq) ip hip
  · by_cases hloc : isLocalhostName (goTrimSpace host)
    · simp [dialContext, hloc]
    · simp [dialContext, hloc]
  · intro hres hne hall
    subst hres
    by_cases hloc : isLocalhostName (goTrimSpace host)
    · left
      simp [dialContext, hloc]
    · right
      have hemp : ips.isEmpty = false := by
        cases ips with
        | nil => exact absurd rfl hne
        | cons a l => rfl
      simp only [dialContext, if_neg (by simp : ¬ (False : Prop)),
        Bool.false_eq_true, if_false]
      rw [if_neg hloc, if_neg (by simp [hemp])]
      exact dialLoop_all_blocked dial ips false [] hall

theorem web_dial_ssrf_witness :
    (some [IPAddr.v4 (ipv4 10 0 0 5)] = some [IPAddr.v4 (ipv4 10 0 0 5)]) ∧
    ([IPAddr.v4 (ipv4 10 0 0 5)] ≠ ([] : List IPAddr)) ∧
    isPrivateOrLocalIP (IPAddr.v4 (ipv4 10 0 0 5)) = true ∧
    (dialContext false "internal.test".data none (some [IPAddr.v4 (ipv4 10 0 0 5)])
        (fun _ => true) = ([], .errBlockedHost) ∨
     dialContext false "internal.test".data none (some [IPAddr.v4 (ipv4 10 0 0 5)])
        (fun _ => true) = ([], .errAllPrivate)) := by
  refine ⟨rfl, by decide, by decide, ?_⟩
  exact (web_dial_ssrf "internal.test".data none (some [IPAddr.v4 (ipv4 10 0 0 5)])
    (fun _ => true) [IPAddr.v4 (ipv4 10 0 0 5)]).2.2 rfl (by decide)
    (by
      intro ip hip
      rcases List.mem_singleton.mp hip with rfl
      decide)

end Picobot
